import Mathlib

/-!
Shallow embedding of the SMS dispatch engine in `notifications/services.py`
(class `SMSService`) together with small models of the pieces of the Python
runtime the module relies on (string methods, `re.sub(r'\s+', ' ', ...)`,
`float(...)`, the `f"{x:,.2f}"` format, dict update semantics, slicing).
Python strings are modelled as Lean `String` / `List Char`; arbitrary Python
values that may be passed where the code is duck-typed are modelled by the
inductive `PyVal`; operations that can raise are modelled in `Except`.
The HTTP transport is abstracted as a function from the attempt index to a
`TransportOutcome`, exactly the information the retry loop inspects.
-/

/-- Whitespace set used by Python's `str.strip()` and the regex class `\s`
(ASCII range): space, tab, newline, carriage return, vertical tab, form feed. -/
def pyWs (c : Char) : Bool :=
  c == ' ' || c == '\t' || c == '\n' || c == '\r' ||
  c == Char.ofNat 11 || c == Char.ofNat 12

/-- Model of Python `str.strip()` on the character list: drop leading and
trailing whitespace. -/
def pyStripList (l : List Char) : List Char :=
  ((l.dropWhile pyWs).reverse.dropWhile pyWs).reverse

/-- Scanner for `re.sub(r'\s+', ' ', s)`: the flag records whether the
previous character belonged to a whitespace run; the first character of each
run emits one space, the rest of the run is dropped. -/
def collapseAux : Bool → List Char → List Char
  | _, [] => []
  | prevWs, c :: rest =>
    if pyWs c then
      if prevWs then collapseAux true rest
      else ' ' :: collapseAux true rest
    else c :: collapseAux false rest

/-- Model of `re.sub(r'\s+', ' ', s)`: every maximal run of whitespace is
replaced by a single space. -/
def collapseWs (l : List Char) : List Char :=
  collapseAux false l

/-- Model of `s.replace('\n', ' ').replace('\r', ' ').replace('\t', ' ')`:
the three replaced characters are single characters and the replacement is a
space, so the sequential replaces act as one character map. -/
def stripNlTab (l : List Char) : List Char :=
  l.map (fun c => if c == '\n' || c == '\r' || c == '\t' then ' ' else c)

/-- Python dict assignment `d[k] = v`: replace the value at an existing key in
place, otherwise append the new pair at the end (insertion order). -/
def dictInsert {α : Type} (d : List (String × α)) (k : String) (v : α) :
    List (String × α) :=
  match d with
  | [] => [(k, v)]
  | (k', v') :: rest => if k' = k then (k', v) :: rest else (k', v') :: dictInsert rest k v

/-- Python `d.update(extra)`: assign each pair of `extra` into `d` in order. -/
def dictUpdate {α : Type} (d extra : List (String × α)) : List (String × α) :=
  extra.foldl (fun acc kv => dictInsert acc kv.1 kv.2) d

/-- Model of the Python substring test `needle in hay`. -/
def containsSub (hay needle : String) : Bool :=
  (List.range (hay.data.length + 1)).any
    (fun i => needle.data.isPrefixOf (hay.data.drop i))

/-- Exact decimal number `man / 10 ^ exp`, the value model for Python floats
and `decimal.Decimal` values reaching the engine (every concrete constant the
claims mention is an exact decimal, hence exactly representable). -/
structure DecNum where
  man : Int
  exp : Nat
deriving DecidableEq, Repr

/-- Ten to a natural power, as an integer. -/
def pow10 : Nat → Int
  | 0 => 1
  | n + 1 => 10 * pow10 n

/-- A Python float (or a Decimal convertible to one): an exact decimal
finite value, negative zero (which keeps its sign when formatted), a signed
infinity, or NaN. -/
inductive PyFloat where
  | finite (v : DecNum)
  | negZero
  | inf (neg : Bool)
  | nan
deriving DecidableEq, Repr

/-- Python truthiness of a float: zero (of either sign) is falsy, every
other float — infinities and NaN included — is truthy. -/
def PyFloat.truthy : PyFloat → Bool
  | .finite v => v.man != 0
  | .negZero => false
  | .inf _ => true
  | .nan => true

/-- Duck-typed Python values that reach the engine's public entry points:
`None`, `str`, `int`, `float` and `decimal.Decimal`. -/
inductive PyVal where
  | none
  | str (s : String)
  | int (n : Int)
  | float (q : PyFloat)
  | dec (q : PyFloat)
deriving DecidableEq, Repr

/-- Python truthiness for the values of `PyVal`. -/
def pyTruthy : PyVal → Bool
  | .none => false
  | .str s => !s.data.isEmpty
  | .int n => n != 0
  | .float q => q.truthy
  | .dec q => q.truthy

/-- Python slice `v[:n]`: succeeds on strings, raises `TypeError` on values
that are not subscriptable (in particular `None`). -/
def pySliceTake (n : Nat) : PyVal → Except String String
  | .str s => .ok ⟨s.data.take n⟩
  | _ => .error "TypeError: value is not subscriptable"

/-- Tail of a digit group possibly containing single underscores: each
underscore must sit directly between two digits (PEP 515); returns the
accumulated decimal value. -/
def digitsUAux : Nat → List Char → Option Nat
  | acc, [] => some acc
  | _, ['_'] => Option.none
  | acc, '_' :: d :: rest =>
    if d.isDigit then digitsUAux (acc * 10 + (d.toNat - 48)) rest else Option.none
  | acc, d :: rest =>
    if d.isDigit then digitsUAux (acc * 10 + (d.toNat - 48)) rest else Option.none

/-- A nonempty digit group, starting with a digit, with single underscores
allowed only between digits; its decimal value. -/
def digitsU (l : List Char) : Option Nat :=
  match l with
  | d :: rest => if d.isDigit then digitsUAux (d.toNat - 48) rest else Option.none
  | [] => Option.none

/-- Mantissa of a float literal (`digits`, `digits.`, `.digits` or
`digits.digits`, underscores allowed inside each digit group): the value
scaled to an integer together with the number of fractional digits. -/
def parseMantissa (mant : List Char) : Option (Nat × Nat) :=
  let ip := mant.takeWhile (· != '.')
  match mant.dropWhile (· != '.') with
  | [] => (digitsU ip).map (fun a => (a, 0))
  | _ :: fp =>
    if fp.contains '.' then Option.none
    else
      match ip, fp with
      | [], [] => Option.none
      | [], _ => (digitsU fp).map (fun b => (b, (fp.filter Char.isDigit).length))
      | _, [] => (digitsU ip).map (fun a => (a, 0))
      | _, _ =>
        match digitsU ip, digitsU fp with
        | some a, some b =>
          some (a * 10 ^ (fp.filter Char.isDigit).length + b,
            (fp.filter Char.isDigit).length)
        | _, _ => Option.none

/-- Exponent part of a float literal: empty, or `e` followed by an optional
sign and a digit group. -/
def parseExponent (erest : List Char) : Option Int :=
  match erest with
  | [] => some 0
  | _ :: ex =>
    let esgn : Bool × List Char :=
      match ex with
      | '+' :: r => (false, r)
      | '-' :: r => (true, r)
      | _ => (false, ex)
    (digitsU esgn.2).map (fun e => if esgn.1 then -(e : Int) else (e : Int))

/-- Model of Python `float(s)` on ASCII input: strip surrounding whitespace,
one optional sign, then (case-insensitively) `inf`/`infinity`, `nan`, or a
decimal literal — digit groups with single underscores between digits, at
most one dot, and an optional `e`-exponent. Anything else raises
`ValueError`, modelled as `none`. A parsed negative zero is kept as
`PyFloat.negZero` so formatting preserves its sign. Non-ASCII digits are
outside the modelled input space. -/
def pyFloatOfStr (s : String) : Option PyFloat :=
  let cs := (pyStripList s.data).map Char.toLower
  let sgn : Bool × List Char :=
    match cs with
    | '+' :: r => (false, r)
    | '-' :: r => (true, r)
    | _ => (false, cs)
  if sgn.2 = "inf".data ∨ sgn.2 = "infinity".data then some (.inf sgn.1)
  else if sgn.2 = "nan".data then some .nan
  else
    let mant := sgn.2.takeWhile (· != 'e')
    let erest := sgn.2.dropWhile (· != 'e')
    match parseMantissa mant, parseExponent erest with
    | some mv, some e =>
      if sgn.1 ∧ mv.1 = 0 then some .negZero
      else
        let sm : Int := if sgn.1 then -(mv.1 : Int) else (mv.1 : Int)
        let net : Int := e - (mv.2 : Int)
        some (.finite (if 0 ≤ net then ⟨sm * pow10 net.toNat, 0⟩ else ⟨sm, (-net).toNat⟩))
    | _, _ => Option.none

/-- The number of cents in `v`, rounded to the nearest integer with ties to
the even integer: the rounding Python applies when formatting with `.2f`. -/
def roundCentsHalfEven (v : DecNum) : Int :=
  let num := v.man * 100
  let d := pow10 v.exp
  let f := Int.fdiv num d
  let r := num - f * d
  if 2 * r < d then f
  else if d < 2 * r then f + 1
  else if f % 2 = 0 then f else f + 1

/-- Decimal digit characters of `n`, least significant first, driven by a
structural fuel argument (`fuel ≥ n` suffices). -/
def natDigitsAux : Nat → Nat → List Char
  | 0, _ => []
  | _ + 1, 0 => []
  | fuel + 1, n + 1 => Nat.digitChar ((n + 1) % 10) :: natDigitsAux fuel ((n + 1) / 10)

/-- Decimal digit characters of `n`, least significant first; `0` renders as
`"0"`. -/
def natDigitsRev (n : Nat) : List Char :=
  if n = 0 then ['0'] else natDigitsAux n n

/-- Insert a comma after every group of three characters, acting on a
least-significant-first digit list (the `,` option of Python's format mini
language). -/
def commaRev : List Char → List Char
  | [] => []
  | [a] => [a]
  | [a, b] => [a, b]
  | [a, b, c] => [a, b, c]
  | a :: b :: c :: d :: rest => a :: b :: c :: ',' :: commaRev (d :: rest)

/-- Comma-grouped decimal rendering of a natural number. -/
def commaGroup (n : Nat) : String :=
  ⟨(commaRev (natDigitsRev n)).reverse⟩

/-- Two-digit zero-padded rendering of `m < 100` (the cent part of `.2f`). -/
def twoDigits (m : Nat) : String :=
  ⟨[Nat.digitChar (m / 10), Nat.digitChar (m % 10)]⟩

/-- Grouped rendering of a nonnegative cent count: integer part with commas,
a dot, and exactly two fractional digits. -/
def centsFormat (c : Nat) : String :=
  commaGroup (c / 100) ++ "." ++ twoDigits (c % 100)

/-- Model of Python `f"{x:,.2f}"` on the exact value `q`: round to a whole
number of cents (ties to even), render the magnitude grouped, prepend the sign
of the original value (so `-0.001` renders as `"-0.00"`, as in Python). -/
def pyFormat (q : DecNum) : String :=
  let c := (roundCentsHalfEven q).natAbs
  if q.man < 0 then "-" ++ centsFormat c else centsFormat c

/-- Model of `f"{x:,.2f}"` on a full Python float: finite values are
rendered by `pyFormat`, negative zero keeps its sign (`"-0.00"`), and
infinities and NaN ignore precision and grouping and render as `"inf"`,
`"-inf"` and `"nan"`, as in Python. -/
def pyFormatF : PyFloat → String
  | .finite v => pyFormat v
  | .negZero => "-" ++ centsFormat 0
  | .inf true => "-inf"
  | .inf false => "inf"
  | .nan => "nan"

namespace SMSService

/-- Embedding of `SMSService._format_amount`: strings are converted with
`float`, `Decimal` values are converted to float, then formatted with
`f"{amount:,.2f}"`; `ValueError`/`TypeError` are caught and yield `"0.00"`.
A plain `int` is formatted directly by the f-string. -/
def _format_amount (amount : PyVal) : String :=
  match amount with
  | .str s =>
    match pyFloatOfStr s with
    | some q => pyFormatF q
    | Option.none => "0.00"
  | .dec q => pyFormatF q
  | .float q => pyFormatF q
  | .int n => pyFormat ⟨n, 0⟩
  | .none => "0.00"

/-- String-level core of `SMSService._validate_phone`: strip, remove inner
spaces, drop one leading `+`, then require length at least 9 and all digits
(Python's `str.isdigit`). -/
def validPhoneStr (p : String) : Bool :=
  let c := (pyStripList p.data).filter (· != ' ')
  let c := match c with
    | '+' :: r => r
    | l => l
  decide (9 ≤ c.length) && c.all Char.isDigit

/-- Embedding of `SMSService._validate_phone`: falsy or non-string input is
rejected, otherwise the string-level check applies. -/
def _validate_phone (phone : PyVal) : Bool :=
  match phone with
  | .str p => !p.data.isEmpty && validPhoneStr p
  | _ => false

/-- Truncation step of `_validate_message`: `message[:297] + "..."` when the
message exceeds 300 characters. -/
def truncate300 (m : List Char) : List Char :=
  if 300 < m.length then m.take 297 ++ ['.', '.', '.'] else m

/-- List-level body of `SMSService._validate_message` on a nonempty string:
strip, collapse whitespace runs, truncate to 297 characters plus `"..."` when
longer than 300, then replace `\n`, `\r`, `\t` by spaces. -/
def sanitizeL (l : List Char) : List Char :=
  stripNlTab (truncate300 (collapseWs (pyStripList l)))

/-- Embedding of `SMSService._validate_message`: falsy or non-string input
yields the empty string, otherwise the cleaning pipeline `sanitizeL` runs. -/
def _validate_message (message : PyVal) : String :=
  match message with
  | .str s => if s.data.isEmpty then "" else ⟨sanitizeL s.data⟩
  | _ => ""

/-- Common final acceptance check of `_normalize_ethiopian_phone`: the
candidate must start with `"2519"` and be exactly 12 characters. -/
def finalizeEthiopian (pc : List Char) : Option String :=
  if ("2519".data.isPrefixOf pc) && pc.length == 12 then some ⟨pc⟩ else Option.none

/-- Embedding of `SMSService._normalize_ethiopian_phone`: strip, remove
spaces and hyphens, drop one leading `+`; keep a `251`-prefixed candidate,
replace a leading `0` by `251`, prefix a 9-character candidate starting with
`9` by `251`, and reject every other shape; finally accept only `2519`-prefixed
12-character results. -/
def _normalize_ethiopian_phone (phone : String) : Option String :=
  let pc := ((pyStripList phone.data).filter (· != ' ')).filter (· != '-')
  let pc := match pc with
    | '+' :: r => r
    | l => l
  if "251".data.isPrefixOf pc then finalizeEthiopian pc
  else if "0".data.isPrefixOf pc then finalizeEthiopian ("251".data ++ pc.tail)
  else if "9".data.isPrefixOf pc && pc.length == 9 then finalizeEthiopian ("251".data ++ pc)
  else Option.none

/-- Outcome of one transport call (`make_rest_request` wrapped in
`asyncio.wait_for`): a response with a status code, a `None` response, or an
exception (connection failure or timeout). -/
inductive TransportOutcome where
  | ok (status : Nat)
  | noResponse
  | exn
deriving DecidableEq, Repr

/-- Condition `response and response.status_code == 200` in the retry loops. -/
def attemptSucceeds : TransportOutcome → Bool
  | .ok s => s == 200
  | _ => false

/-- Retry loop shared verbatim by `send_sms` and `_send_geezsms`, run over the
list of remaining attempt indices (`range(SMS_RETRY_ATTEMPTS)`): return on
status 200, otherwise sleep `min(2 ** attempt, 10)` before each further
attempt. Returns the final boolean, the number of transport attempts made and
the list of backoff sleeps in order. -/
def retryLoop (t : Nat → TransportOutcome) : List Nat → Bool × Nat × List Nat
  | [] => (false, 0, [])
  | i :: rest =>
    if attemptSucceeds (t i) then (true, 1, [])
    else
      match rest with
      | [] => (false, 1, [])
      | r :: rs =>
        let out := retryLoop t (r :: rs)
        (out.1, out.2.1 + 1, min (2 ^ i) 10 :: out.2.2)

/-- The retry loop on `range(maxAttempts)`. -/
def runRetries (t : Nat → TransportOutcome) (maxAttempts : Nat) : Bool × Nat × List Nat :=
  retryLoop t (List.range maxAttempts)

/-- Read-only module configuration: `SAVING_API_URL`, `SMS_API_KEY` (both
possibly unset, modelled as `Option`), and `SMS_RETRY_ATTEMPTS`. -/
structure Config where
  savingApiUrl : Option String
  smsApiKey : Option String
  retryAttempts : Nat
deriving DecidableEq, Repr

/-- Result of `SMSService.send_sms`, keeping the branch taken and, when the
retry loop runs, the URL and body that were dispatched together with the loop
outcome. The caller-visible boolean is `false` for the two early returns and
the loop's boolean otherwise. -/
inductive SendResult where
  | configError
  | invalidPhone
  | completed (url : String) (reference : String) (payload : List (String × PyVal))
      (ok : Bool) (attempts : Nat) (sleeps : List Nat)
deriving DecidableEq, Repr

/-- Caller-visible boolean of a `SendResult`. -/
def SendResult.toBool : SendResult → Bool
  | .configError => false
  | .invalidPhone => false
  | .completed _ _ _ ok _ _ => ok

/-- True exactly when the dispatch reached the retry loop. -/
def SendResult.isCompleted : SendResult → Bool
  | .completed _ _ _ _ _ _ => true
  | _ => false

/-- Embedding of `SMSService.send_sms`: missing or empty `SAVING_API_URL` is a
terminal configuration error; a truthy phone failing `_validate_phone` is a
terminal validation error; otherwise the body `{reference, payload}` is posted
to `{SAVING_API_URL}/send_sms` under the retry loop. Nothing inside the
function's `try` block can raise in this model, so the outer handler is not
represented. -/
def send_sms (cfg : Config) (t : Nat → TransportOutcome) (reference : String)
    (payload : List (String × PyVal)) (phone : PyVal) : SendResult :=
  match cfg.savingApiUrl with
  | Option.none => .configError
  | some base =>
    if base.data.isEmpty then .configError
    else if pyTruthy phone && !_validate_phone phone then .invalidPhone
    else
      let out := runRetries t cfg.retryAttempts
      .completed (base ++ "/send_sms") reference payload out.1 out.2.1 out.2.2

/-- Result of `SMSService._send_geezsms`: missing API key or a phone rejected
by `_normalize_ethiopian_phone` are terminal pre-check failures with no
network attempt; otherwise the body `{token, phone, msg}` is posted to
`SAVING_API_URL` under the retry loop. -/
inductive GeezResult where
  | noApiKey
  | badPhone
  | sent (url : Option String) (token : String) (phone : String) (msg : String)
      (ok : Bool) (attempts : Nat) (sleeps : List Nat)
deriving DecidableEq, Repr

/-- Caller-visible boolean of a `GeezResult`. -/
def GeezResult.toBool : GeezResult → Bool
  | .noApiKey => false
  | .badPhone => false
  | .sent _ _ _ _ ok _ _ => ok

/-- Embedding of `SMSService._send_geezsms`. -/
def _send_geezsms (cfg : Config) (t : Nat → TransportOutcome) (phone msg : String) :
    GeezResult :=
  match cfg.smsApiKey with
  | Option.none => .noApiKey
  | some key =>
    if key.data.isEmpty then .noApiKey
    else
      match _normalize_ethiopian_phone phone with
      | Option.none => .badPhone
      | some np =>
        let out := runRetries t cfg.retryAttempts
        .sent cfg.savingApiUrl key np msg out.1 out.2.1 out.2.2

/-- The payload `send_custom_sms` builds on the generic path: the three built
fields in insertion order, then `payload.update(additional_data)`. -/
def custom_sms_payload (phone clean : String) (message_type : String)
    (extra : List (String × PyVal)) : List (String × PyVal) :=
  dictUpdate [("phone", .str phone), ("message", .str clean), ("type", .str message_type)]
    extra

/-- Result of `SMSService.send_custom_sms`, recording the branch taken:
validation failures, the gateway-specific path through `_send_geezsms`, or the
generic path through `send_sms`. -/
inductive CustomResult where
  | invalidPhone
  | emptyMessage
  | viaGateway (g : GeezResult)
  | viaGeneric (s : SendResult)
deriving DecidableEq, Repr

/-- Caller-visible boolean of a `CustomResult`. -/
def CustomResult.toBool : CustomResult → Bool
  | .invalidPhone => false
  | .emptyMessage => false
  | .viaGateway g => g.toBool
  | .viaGeneric s => s.toBool

/-- Embedding of `SMSService.send_custom_sms`. The generated reference
(`_generate_reference("CUSTOM")`, wall clock plus randomness) is taken as the
parameter `reference`. The empty-message warning slices `phone[:4]`, modelled
by `pySliceTake`; it cannot fail here because `_validate_phone` only accepts
strings. Provider selection: when `SAVING_API_URL` is truthy and contains
`"geezsms.com"` the dispatch goes through `_send_geezsms`, otherwise through
`send_sms` with the merged payload. -/
def send_custom_sms (cfg : Config) (t : Nat → TransportOutcome) (reference : String)
    (phone message : PyVal) (message_type : String)
    (additional_data : Option (List (String × PyVal))) : Except String CustomResult :=
  match phone with
  | .str p =>
    if !(!p.data.isEmpty && validPhoneStr p) then .ok .invalidPhone
    else
      let clean := _validate_message message
      if clean.data.isEmpty then
        match pySliceTake 4 (.str p) with
        | .error e => .error e
        | .ok _ => .ok .emptyMessage
      else
        let generic : Except String CustomResult :=
          .ok (.viaGeneric (send_sms cfg t reference
            (custom_sms_payload p clean message_type
              ((additional_data.getD []))) (.str p)))
        match cfg.savingApiUrl with
        | some url =>
          if !url.data.isEmpty && containsSub url "geezsms.com" then
            .ok (.viaGateway (_send_geezsms cfg t p clean))
          else generic
        | Option.none => generic
  | _ => .ok .invalidPhone

/-- Embedding of `SMSService.send_notification_sms`: clean the message; when
the cleaned message is empty the warning log evaluates `phone[:4]`, which
raises `TypeError` for a non-string phone (this function has no exception
handler of its own); otherwise delegate to `send_custom_sms`. -/
def send_notification_sms (cfg : Config) (t : Nat → TransportOutcome) (reference : String)
    (phone message : PyVal) : Except String Bool :=
  let clean := _validate_message message
  if clean.data.isEmpty then
    match pySliceTake 4 phone with
    | .error e => .error e
    | .ok _ => .ok false
  else
    (send_custom_sms cfg t reference phone (.str clean) "notification" Option.none).map
      CustomResult.toBool

/-- The payload `send_transaction_sms` builds. -/
def transaction_payload (product_name : String) (balance : PyVal) (bank_name : String) :
    List (String × PyVal) :=
  [("product_name", .str product_name),
   ("saving_balance", .str (_format_amount balance)),
   ("bank_name", .str bank_name),
   ("type", .str "transaction")]

/-- Embedding of `SMSService.send_transaction_sms`: builds the transaction
payload and delegates directly to `send_sms` (no provider selection). -/
def send_transaction_sms (cfg : Config) (t : Nat → TransportOutcome) (reference : String)
    (product_name : String) (balance : PyVal) (bank_name : String) (phone : PyVal) :
    SendResult :=
  send_sms cfg t reference (transaction_payload product_name balance bank_name) phone

/-- One entry of the `sms_requests` list consumed by `send_multiple_sms`:
`request.get('phone')` and `request.get('message')` may be absent (`none`)
or present; a present phone is modelled as a string (`some ""` models an
empty, falsy phone). The per-entry `type` and `additional_data` do not affect
the aggregation logic and are omitted from the model. -/
structure SmsRequest where
  phone : Option String
  message : Option String
deriving DecidableEq, Repr

/-- Truthiness of an optional string (`None` and `""` are falsy). -/
def truthyOpt : Option String → Bool
  | Option.none => false
  | some s => !s.data.isEmpty

/-- Condition `if phone and message:` on a request. -/
def reqValid (r : SmsRequest) : Bool :=
  truthyOpt r.phone && truthyOpt r.message

/-- The phone string of a valid request. -/
def reqPhone (r : SmsRequest) : String :=
  r.phone.getD ""

/-- Key used for an invalid request: `phone or 'invalid'`. -/
def effKey (r : SmsRequest) : String :=
  if truthyOpt r.phone then reqPhone r else "invalid"

/-- First loop of `send_multiple_sms`: walk the requests, recording an
immediate `False` under `phone or 'invalid'` for entries missing phone or
message, and collecting the phones of valid entries as tasks, in order. -/
def collectLoop (reqs : List SmsRequest) (results : List (String × Bool))
    (tasks : List String) : List (String × Bool) × List String :=
  match reqs with
  | [] => (results, tasks)
  | r :: rest =>
    if reqValid r then collectLoop rest results (tasks ++ [reqPhone r])
    else collectLoop rest (dictInsert results (effKey r) false) tasks

/-- Value recorded for one gathered task: `result if not isinstance(result,
Exception) else False` (`asyncio.gather(..., return_exceptions=True)` hands
back the exception as a value instead of propagating it). -/
def outcomeBool : Except Unit Bool → Bool
  | .ok b => b
  | .error _ => false

/-- Second loop of `send_multiple_sms`: assign each task's gathered outcome
under its phone key. -/
def assignLoop (pairs : List (String × Except Unit Bool)) (results : List (String × Bool)) :
    List (String × Bool) :=
  match pairs with
  | [] => results
  | (ph, out) :: rest => assignLoop rest (dictInsert results ph (outcomeBool out))

/-- Embedding of `SMSService.send_multiple_sms`: the result dict (as an
insertion-ordered association list). The delivery outcome of the `i`-th
launched task (in launch order) is supplied by `outcomes i`, an `Except`
capturing that a task may resolve to a boolean or raise. -/
def send_multiple_sms (reqs : List SmsRequest) (outcomes : Nat → Except Unit Bool) :
    List (String × Bool) :=
  assignLoop
    ((collectLoop reqs [] []).2.enum.map (fun iph => (iph.2, outcomes iph.1)))
    (collectLoop reqs [] []).1

end SMSService

/-- Modelled from the spec (claim C5's wording): the branch for a bare local
number requires a 9-digit input starting with `9`; otherwise identical to the
code's cleaning and final acceptance. -/
def claimNormalizeGatewayPhone (phone : String) : Option String :=
  let pc := ((pyStripList phone.data).filter (· != ' ')).filter (· != '-')
  let pc := match pc with
    | '+' :: r => r
    | l => l
  if "251".data.isPrefixOf pc then SMSService.finalizeEthiopian pc
  else if "0".data.isPrefixOf pc then SMSService.finalizeEthiopian ("251".data ++ pc.tail)
  else if ("9".data.isPrefixOf pc && pc.length == 9) && pc.all Char.isDigit then
    SMSService.finalizeEthiopian ("251".data ++ pc)
  else Option.none

/-- Modelled from the amended claim C5: as `claimNormalizeGatewayPhone` but
the bare-local branch requires a 9-character input starting with `9` (no
digit requirement), matching the code. -/
def amendedNormalizeGatewayPhone (phone : String) : Option String :=
  let pc := ((pyStripList phone.data).filter (· != ' ')).filter (· != '-')
  let pc := match pc with
    | '+' :: r => r
    | l => l
  if "251".data.isPrefixOf pc then SMSService.finalizeEthiopian pc
  else if "0".data.isPrefixOf pc then SMSService.finalizeEthiopian ("251".data ++ pc.tail)
  else if "9".data.isPrefixOf pc && pc.length == 9 then
    SMSService.finalizeEthiopian ("251".data ++ pc)
  else Option.none

/-- Requests of a batch that fail the `if phone and message:` gate. -/
def invalidReqs (reqs : List SMSService.SmsRequest) : List SMSService.SmsRequest :=
  reqs.filter (fun r => !SMSService.reqValid r)

/-- The keys under which the first loop of `send_multiple_sms` records the
immediate failures, in order. -/
def invKeys (reqs : List SMSService.SmsRequest) : List String :=
  (invalidReqs reqs).map SMSService.effKey

/-- The immediate-failure entries of the result map, in order. -/
def invPairs (reqs : List SMSService.SmsRequest) : List (String × Bool) :=
  (invalidReqs reqs).map (fun r => (SMSService.effKey r, false))

/-- The phones of the valid entries, in launch order: exactly the recipients
for which a delivery task is started. -/
def validPhones (reqs : List SMSService.SmsRequest) : List String :=
  (reqs.filter SMSService.reqValid).map SMSService.reqPhone

/-- A whitespace-collapsed character list: every whitespace character is a
plain space and no two adjacent characters are both whitespace. This is the
state `collapseWs` establishes and preserves. -/
def Collapsed (l : List Char) : Prop :=
  (∀ c ∈ l, pyWs c = true → c = ' ') ∧
  l.Chain' (fun a b => ¬(pyWs a = true ∧ pyWs b = true))

section DictLemmas

variable {α : Type}

/-- Unfolding the head of an association-list lookup at the matching key. -/
theorem lookup_cons_self (k : String) (v : α) (rest : List (String × α)) :
    List.lookup k ((k, v) :: rest) = some v := by
  simp only [List.lookup]
  rw [beq_self_eq_true]

/-- Unfolding the head of an association-list lookup at a different key. -/
theorem lookup_cons_ne {k k' : String} (h : k' ≠ k) (v : α) (rest : List (String × α)) :
    List.lookup k' ((k, v) :: rest) = List.lookup k' rest := by
  simp only [List.lookup]
  rw [beq_eq_false_iff_ne.mpr h]

/-- Looking up after a single dict assignment: the assigned key now maps to
the new value, every other key is unchanged. -/
theorem lookup_dictInsert (d : List (String × α)) (k k' : String) (v : α) :
    List.lookup k' (dictInsert d k v) = if k' = k then some v else List.lookup k' d := by
  induction d with
  | nil =>
    by_cases h : k' = k
    · subst h; simp [dictInsert, lookup_cons_self]
    · show List.lookup k' [(k, v)] = _
      rw [lookup_cons_ne h, if_neg h]
  | cons e rest ih =>
    obtain ⟨k'', v''⟩ := e
    by_cases h1 : k'' = k
    · subst h1
      by_cases h2 : k' = k''
      · subst h2
        simp [dictInsert, lookup_cons_self]
      · simp [dictInsert, h2, lookup_cons_ne h2]
    · by_cases h2 : k' = k''
      · subst h2
        rw [if_neg h1]
        simp [dictInsert, h1, lookup_cons_self]
      · simp [dictInsert, h1, lookup_cons_ne h2, ih]

/-- A key not assigned by `update` keeps its old binding. -/
theorem lookup_dictUpdate_not_mem (extra : List (String × α)) (d : List (String × α))
    (k : String) (h : k ∉ extra.map Prod.fst) :
    List.lookup k (dictUpdate d extra) = List.lookup k d := by
  induction extra generalizing d with
  | nil => rfl
  | cons e rest ih =>
    simp only [List.map_cons, List.mem_cons, not_or] at h
    show List.lookup k (dictUpdate (dictInsert d e.1 e.2) rest) = _
    rw [ih _ h.2, lookup_dictInsert, if_neg h.1]

/-- A key assigned by `update` ends bound to the value `extra` holds for it:
the caller-supplied mapping wins every collision with the pre-built fields. -/
theorem lookup_dictUpdate_mem (extra : List (String × α)) (d : List (String × α))
    (k : String) (hnd : (extra.map Prod.fst).Nodup) (hk : k ∈ extra.map Prod.fst) :
    List.lookup k (dictUpdate d extra) = List.lookup k extra := by
  induction extra generalizing d with
  | nil => simp at hk
  | cons e rest ih =>
    simp only [List.map_cons, List.nodup_cons] at hnd
    simp only [List.map_cons, List.mem_cons] at hk
    show List.lookup k (dictUpdate (dictInsert d e.1 e.2) rest) = _
    rcases hk with hk | hk
    · subst hk
      rw [lookup_dictUpdate_not_mem _ _ _ hnd.1, lookup_dictInsert, if_pos rfl]
      obtain ⟨k1, v1⟩ := e
      rw [lookup_cons_self]
    · have hne : k ≠ e.1 := fun h => hnd.1 (h ▸ hk)
      rw [ih _ hnd.2 hk]
      obtain ⟨k1, v1⟩ := e
      rw [lookup_cons_ne hne]

end DictLemmas

/-- Claim C10: in `send_custom_sms`, `additional_data` is merged into the
payload after the built fields, so on any key collision (including `"phone"`,
`"message"` and `"type"`) the `additional_data` value replaces the built one:
for every key of `additional_data`, the dispatched payload binds it to the
`additional_data` value. In particular the payload's `"type"` is
`additional_data["type"]` when present, not the `message_type` argument. -/
theorem claim_C10_additional_data_wins (p clean mtype : String)
    (extra : List (String × PyVal)) (k : String)
    (hnd : (extra.map Prod.fst).Nodup) (hk : k ∈ extra.map Prod.fst) :
    List.lookup k (SMSService.custom_sms_payload p clean mtype extra) = List.lookup k extra :=
  lookup_dictUpdate_mem extra _ k hnd hk

/-- Witness for C10: with `additional_data = {"type": "override"}` the
dispatched payload's `"type"` is `"override"`, not the `message_type`
argument `"notification"`. -/
theorem claim_C10_additional_data_wins_witness :
    List.lookup "type"
        (SMSService.custom_sms_payload "0911223344" "hi" "notification"
          [("type", PyVal.str "override")])
      = List.lookup "type" [("type", PyVal.str "override")]
    ∧ List.lookup "type"
        (SMSService.custom_sms_payload "0911223344" "hi" "notification"
          [("type", PyVal.str "override")])
      = some (PyVal.str "override") :=
  ⟨claim_C10_additional_data_wins "0911223344" "hi" "notification"
      [("type", PyVal.str "override")] "type" (by decide) (by decide),
   by decide⟩

/-- Claim C5, counterexample: the code's bare-local branch tests only
`len(phone_clean) == 9`, not that the characters are digits, so the
9-character non-digit input `"9ABCDEFGH"` normalizes to `"2519ABCDEFGH"`,
while the claim's description ("a 9-digit input ... rejects every other
shape") makes it invalid. -/
theorem claim_C5_counterexample :
    SMSService._normalize_ethiopian_phone "9ABCDEFGH" = some "2519ABCDEFGH"
    ∧ claimNormalizeGatewayPhone "9ABCDEFGH" = Option.none := by
  decide

/-- Claim C5 as amended: with the bare-local branch reading "9-character
input starting with 9" instead of "9-digit input", the description agrees
with the code on every input, and the four concrete examples hold. -/
theorem claim_C5_amended_normalize :
    (∀ s, SMSService._normalize_ethiopian_phone s = amendedNormalizeGatewayPhone s)
    ∧ SMSService._normalize_ethiopian_phone "0911223344" = some "251911223344"
    ∧ SMSService._normalize_ethiopian_phone "911223344" = some "251911223344"
    ∧ SMSService._normalize_ethiopian_phone "251911223344" = some "251911223344"
    ∧ SMSService._normalize_ethiopian_phone "12345" = Option.none :=
  ⟨fun _ => rfl, by decide, by decide, by decide, by decide⟩

/-- Claim C2 is right about the design but the code violates it:
`send_notification_sms` with a blank message and a non-string phone evaluates
`phone[:4]` inside its warning log with no exception handler, so the call
raises `TypeError` instead of resolving to a boolean. -/
theorem claim_C2_notification_raises :
    SMSService.send_notification_sms ⟨some "https://sms.example", some "k", 3⟩
        (fun _ => SMSService.TransportOutcome.noResponse) "REF" PyVal.none (PyVal.str "")
      = Except.error "TypeError: value is not subscriptable" := rfl

open SMSService in
/-- With both of the first two attempts failing, the three-attempt retry loop
makes exactly three transport attempts, sleeps `[1, 2]` between them, and
returns the outcome of the third attempt. -/
theorem runRetries_three (t : Nat → SMSService.TransportOutcome)
    (h0 : attemptSucceeds (t 0) = false) (h1 : attemptSucceeds (t 1) = false) :
    runRetries t 3 = (attemptSucceeds (t 2), 3, [1, 2]) := by
  have hr : List.range 3 = [0, 1, 2] := rfl
  unfold SMSService.runRetries
  rw [hr]
  cases h2 : attemptSucceeds (t 2) <;>
    simp [SMSService.retryLoop, h0, h1, h2]

open SMSService in
/-- Claim C1: with `MAX_ATTEMPTS = 3`, an always-failing transport yields
exactly three transport attempts, backoff sleeps `[1, 2]`
(`min(2^(n-1), 10)` after the n-th failed non-final attempt) and a `false`
return; a transport failing twice and then returning HTTP 200 yields a `true`
return after the same three attempts and `[1, 2]` sleeps. This holds for both
copies of the retry loop: the generic `send_sms` engine and `_send_geezsms`. -/
theorem claim_C1_retry_backoff (cfg : Config) (t : Nat → TransportOutcome)
    (ref : String) (payload : List (String × PyVal)) (u key p msg np : String)
    (hcfg : cfg = ⟨some u, some key, 3⟩)
    (hu : u.data.isEmpty = false) (hk : key.data.isEmpty = false)
    (hnp : _normalize_ethiopian_phone p = some np) :
    ((∀ i, attemptSucceeds (t i) = false) →
      send_sms cfg t ref payload .none
          = .completed (u ++ "/send_sms") ref payload false 3 [1, 2]
        ∧ _send_geezsms cfg t p msg = .sent (some u) key np msg false 3 [1, 2])
    ∧ (attemptSucceeds (t 0) = false → attemptSucceeds (t 1) = false →
        attemptSucceeds (t 2) = true →
      send_sms cfg t ref payload .none
          = .completed (u ++ "/send_sms") ref payload true 3 [1, 2]
        ∧ _send_geezsms cfg t p msg = .sent (some u) key np msg true 3 [1, 2]) := by
  subst hcfg
  constructor
  · intro hfail
    have hrr := runRetries_three t (hfail 0) (hfail 1)
    rw [hfail 2] at hrr
    constructor
    · simp [send_sms, hu, pyTruthy, hrr]
    · simp [_send_geezsms, hk, hnp, hrr]
  · intro h0 h1 h2
    have hrr := runRetries_three t h0 h1
    rw [h2] at hrr
    constructor
    · simp [send_sms, hu, pyTruthy, hrr]
    · simp [_send_geezsms, hk, hnp, hrr]

/-- Witness for C1: a concrete always-failing transport and a concrete
fail-fail-succeed transport, run against a concrete configuration. -/
theorem claim_C1_retry_backoff_witness :
    (SMSService.send_sms ⟨some "https://sms.example", some "k", 3⟩
          (fun _ => SMSService.TransportOutcome.noResponse) "REF" [] PyVal.none
        = SMSService.SendResult.completed "https://sms.example/send_sms" "REF" [] false 3 [1, 2]
      ∧ SMSService._send_geezsms ⟨some "https://sms.example", some "k", 3⟩
          (fun _ => SMSService.TransportOutcome.noResponse) "0911223344" "hello"
        = SMSService.GeezResult.sent (some "https://sms.example") "k" "251911223344" "hello"
            false 3 [1, 2])
    ∧ (SMSService.send_sms ⟨some "https://sms.example", some "k", 3⟩
          (fun i => if i == 2 then SMSService.TransportOutcome.ok 200 else .noResponse)
          "REF" [] PyVal.none
        = SMSService.SendResult.completed "https://sms.example/send_sms" "REF" [] true 3 [1, 2]
      ∧ SMSService._send_geezsms ⟨some "https://sms.example", some "k", 3⟩
          (fun i => if i == 2 then SMSService.TransportOutcome.ok 200 else .noResponse)
          "0911223344" "hello"
        = SMSService.GeezResult.sent (some "https://sms.example") "k" "251911223344" "hello"
            true 3 [1, 2]) :=
  ⟨(claim_C1_retry_backoff _ _ _ _ _ _ _ _ _ rfl (by decide) (by decide) (by decide)).1
      (fun _ => rfl),
   (claim_C1_retry_backoff _ _ _ _ _ _ _ _ _ rfl (by decide) (by decide) (by decide)).2
      rfl rfl rfl⟩

open SMSService in
/-- Claim C9: with the gateway URL configured, `send_sms` takes its
invalid-phone early return exactly when the phone argument is truthy and
fails `_validate_phone`; the empty string is falsy, so a dispatch with
`phone = ""` skips that return and proceeds to the retry loop. -/
theorem claim_C9_empty_phone_dispatches (cfg : Config) (t : Nat → TransportOutcome)
    (ref : String) (payload : List (String × PyVal)) (phone : PyVal) (u : String)
    (hurl : cfg.savingApiUrl = some u) (hu : u.data.isEmpty = false) :
    (send_sms cfg t ref payload phone = .invalidPhone
        ↔ pyTruthy phone = true ∧ _validate_phone phone = false)
    ∧ (send_sms cfg t ref payload (.str "")).isCompleted = true := by
  have hempty : pyTruthy (.str "") = false := by decide
  constructor
  · constructor
    · intro hres
      by_cases hc : (pyTruthy phone && !_validate_phone phone) = true
      · rw [Bool.and_eq_true, Bool.not_eq_true'] at hc
        exact hc
      · exfalso
        simp [send_sms, hurl, hu, hc] at hres
    · intro hc
      have hc' : (pyTruthy phone && !_validate_phone phone) = true := by
        rw [Bool.and_eq_true, Bool.not_eq_true']
        exact hc
      simp [send_sms, hurl, hu, hc']
  · simp [send_sms, hurl, hu, hempty, SendResult.isCompleted]

/-- Witness for C9: a concrete configuration, a non-empty invalid phone for
the early-return direction, and the empty-string phone dispatching. -/
theorem claim_C9_empty_phone_dispatches_witness :
    (SMSService.send_sms ⟨some "https://sms.example", Option.none, 3⟩
          (fun _ => SMSService.TransportOutcome.noResponse) "REF" [] (.str "12345")
        = SMSService.SendResult.invalidPhone
      ↔ pyTruthy (.str "12345") = true ∧ SMSService._validate_phone (.str "12345") = false)
    ∧ (SMSService.send_sms ⟨some "https://sms.example", Option.none, 3⟩
        (fun _ => SMSService.TransportOutcome.noResponse) "REF" [] (.str "")).isCompleted
      = true :=
  claim_C9_empty_phone_dispatches _ _ _ _ _ _ rfl (by decide)

/-- Claim C3, counterexample: with the configured base URL identifying the
named gateway (`"geezsms.com"` a substring), `send_transaction_sms` still
dispatches through the generic `{base_url}/send_sms` path — the
gateway-specific routing exists only inside `send_custom_sms`, so the claim
that the routing applies to every public send operation is false. -/
theorem claim_C3_counterexample :
    containsSub "https://api.geezsms.com" "geezsms.com" = true
    ∧ SMSService.send_transaction_sms ⟨some "https://api.geezsms.com", some "k", 3⟩
        (fun _ => SMSService.TransportOutcome.noResponse) "REF" "Gold" (.int 100) "Bank"
        (.str "0911223344")
      = SMSService.SendResult.completed "https://api.geezsms.com/send_sms" "REF"
          [("product_name", PyVal.str "Gold"), ("saving_balance", PyVal.str "100.00"),
           ("bank_name", PyVal.str "Bank"), ("type", PyVal.str "transaction")]
          false 3 [1, 2] := by
  constructor
  · decide
  · rfl

open SMSService in
/-- Claim C3 as amended: provider selection by base URL happens only inside
`send_custom_sms` (and hence in the operations delegating to it): there a
gateway-matching URL routes through `_send_geezsms` and any other URL through
the generic path; operations that call `send_sms` directly, such as
`send_transaction_sms`, always dispatch to `{base_url}/send_sms` regardless
of the base URL. -/
theorem claim_C3_amended_routing (cfg : Config) (t : Nat → TransportOutcome)
    (ref : String) (p : String) (message : PyVal) (mtype : String)
    (extra : Option (List (String × PyVal))) (u : String)
    (hurl : cfg.savingApiUrl = some u) (hu : u.data.isEmpty = false) :
    ((!p.data.isEmpty && validPhoneStr p) = true →
      (_validate_message message).data.isEmpty = false →
      (containsSub u "geezsms.com" = true →
        send_custom_sms cfg t ref (.str p) message mtype extra
          = .ok (.viaGateway (_send_geezsms cfg t p (_validate_message message))))
      ∧ (containsSub u "geezsms.com" = false →
        send_custom_sms cfg t ref (.str p) message mtype extra
          = .ok (.viaGeneric (send_sms cfg t ref
              (custom_sms_payload p (_validate_message message) mtype (extra.getD []))
              (.str p)))))
    ∧ (∀ payload phone url' r pl ok n ss,
        send_sms cfg t ref payload phone = .completed url' r pl ok n ss →
        url' = u ++ "/send_sms")
    ∧ (∀ pn bal bn phone,
        send_transaction_sms cfg t ref pn bal bn phone
          = send_sms cfg t ref (transaction_payload pn bal bn) phone) := by
  refine ⟨?_, ?_, fun pn bal bn phone => rfl⟩
  · intro hp hm
    constructor
    · intro hgz
      simp [send_custom_sms, hp, hm, hurl, hu, hgz]
    · intro hgz
      simp [send_custom_sms, hp, hm, hurl, hu, hgz]
  · intro payload phone url' r pl ok n ss hres
    by_cases hc : (pyTruthy phone && !_validate_phone phone) = true
    · simp [send_sms, hurl, hu, hc] at hres
    · simp [send_sms, hurl, hu, hc] at hres
      exact hres.1.symm

/-- Witness for C3 (amended): with the gateway base URL, `send_custom_sms`
routes through `_send_geezsms`, and a direct `send_sms` dispatch lands on the
generic path URL. -/
theorem claim_C3_amended_routing_witness :
    SMSService.send_custom_sms ⟨some "https://api.geezsms.com", some "k", 3⟩
        (fun _ => SMSService.TransportOutcome.noResponse) "REF" (.str "0911223344")
        (.str "hello") "notification" Option.none
      = .ok (.viaGateway (SMSService._send_geezsms
          ⟨some "https://api.geezsms.com", some "k", 3⟩
          (fun _ => SMSService.TransportOutcome.noResponse) "0911223344"
          (SMSService._validate_message (.str "hello")))) :=
  ((claim_C3_amended_routing _ _ "REF" "0911223344" (.str "hello") "notification"
      Option.none _ rfl (by decide)).1 (by decide) (by decide)).1 (by decide)

/-- Dropping a satisfying prefix does nothing when no character satisfies the
predicate. -/
theorem dropWhile_eq_self_of_nows {p : Char → Bool} :
    ∀ {l : List Char}, (∀ c ∈ l, p c = false) → l.dropWhile p = l
  | [], _ => rfl
  | c :: rest, h => by
    rw [List.dropWhile_cons, if_neg (by rw [h c (List.mem_cons_self c rest)]; simp)]

/-- Stripping does nothing to a whitespace-free character list. -/
theorem pyStrip_eq_self_of_nows {l : List Char} (h : ∀ c ∈ l, pyWs c = false) :
    pyStripList l = l := by
  unfold pyStripList
  rw [dropWhile_eq_self_of_nows h,
    dropWhile_eq_self_of_nows (fun c hc => h c (List.mem_reverse.mp hc)),
    List.reverse_reverse]

/-- Collapsing whitespace runs does nothing to a whitespace-free character
list, whatever the scanner flag. -/
theorem collapseAux_eq_self_of_nows :
    ∀ {l : List Char}, (∀ c ∈ l, pyWs c = false) → ∀ b, collapseAux b l = l
  | [], _, _ => rfl
  | c :: rest, h, b => by
    rw [show collapseAux b (c :: rest)
        = if pyWs c then (if b then collapseAux true rest else ' ' :: collapseAux true rest)
          else c :: collapseAux false rest from rfl,
      if_neg (by rw [h c (List.mem_cons_self c rest)]; simp),
      collapseAux_eq_self_of_nows (fun c hc => h c (List.mem_cons_of_mem _ hc)) false]

/-- A character map that fixes every character of a list fixes the list. -/
theorem map_eq_self_of {f : Char → Char} :
    ∀ {l : List Char}, (∀ c ∈ l, f c = c) → l.map f = l
  | [], _ => rfl
  | c :: rest, h => by
    rw [List.map_cons, h c (List.mem_cons_self c rest),
      map_eq_self_of (fun c hc => h c (List.mem_cons_of_mem _ hc))]

/-- A non-whitespace character is none of `\n`, `\r`, `\t`. -/
theorem nlTab_false_of_nows {c : Char} (h : pyWs c = false) :
    (c == '\n' || c == '\r' || c == '\t') = false := by
  simp only [pyWs, Bool.or_eq_false_iff] at h
  obtain ⟨⟨⟨⟨⟨_, htab⟩, hnl⟩, hcr⟩, _⟩, _⟩ := h
  simp [Bool.or_eq_false_iff, hnl, hcr, htab]

/-- The newline replacement does nothing to a whitespace-free list. -/
theorem stripNlTab_eq_self_of_nows {l : List Char} (h : ∀ c ∈ l, pyWs c = false) :
    stripNlTab l = l :=
  map_eq_self_of (fun c hc => by rw [if_neg (by rw [nlTab_false_of_nows (h c hc)]; simp)])

set_option maxRecDepth 10000 in
/-- Claim C7, counterexample: a 400-character input consisting of whitespace
sanitizes to the empty string, not to 300 characters — the claim is false for
400-character inputs whose cleaned form no longer exceeds 300 characters. -/
theorem claim_C7_counterexample :
    (String.mk (List.replicate 400 ' ')).data.length = 400
    ∧ (SMSService._validate_message (.str (String.mk (List.replicate 400 ' ')))).data.length
      = 0 := by
  decide

/-- Claim C7 as amended: for every 400-character input containing no
whitespace (so that stripping and collapsing leave it unchanged),
`sanitizeMessage` returns exactly 300 characters: the first 297 characters of
the input followed by the 3-character `"..."` marker. -/
theorem claim_C7_amended_truncation (s : String) (hlen : s.data.length = 400)
    (hws : ∀ c ∈ s.data, pyWs c = false) :
    SMSService._validate_message (.str s) = ⟨s.data.take 297 ++ ['.', '.', '.']⟩
    ∧ (SMSService._validate_message (.str s)).data.length = 300 := by
  have hne : s.data.isEmpty = false := by
    cases hd : s.data with
    | nil => rw [hd] at hlen; simp at hlen
    | cons a t => simp [List.isEmpty]
  have hmain : SMSService._validate_message (.str s) = ⟨s.data.take 297 ++ ['.', '.', '.']⟩ := by
    show (if s.data.isEmpty then "" else ⟨SMSService.sanitizeL s.data⟩) = _
    rw [hne]
    show (⟨SMSService.sanitizeL s.data⟩ : String) = _
    have h1 : pyStripList s.data = s.data := pyStrip_eq_self_of_nows hws
    have h2 : collapseWs s.data = s.data := collapseAux_eq_self_of_nows hws false
    have h3 : stripNlTab (s.data.take 297 ++ ['.', '.', '.'])
        = s.data.take 297 ++ ['.', '.', '.'] := by
      refine stripNlTab_eq_self_of_nows (fun c hc => ?_)
      rcases List.mem_append.mp hc with hc | hc
      · exact hws c (List.mem_of_mem_take hc)
      · have hdot : c = '.' := by simpa using hc
        subst hdot; decide
    unfold SMSService.sanitizeL SMSService.truncate300
    rw [h1]
    show (⟨stripNlTab (if 300 < (collapseWs s.data).length
        then List.take 297 (collapseWs s.data) ++ ['.', '.', '.']
        else collapseWs s.data)⟩ : String) = _
    rw [h2, if_pos (by rw [hlen]; norm_num), h3]
  refine ⟨hmain, ?_⟩
  rw [hmain]
  show (s.data.take 297 ++ ['.', '.', '.']).length = 300
  rw [List.length_append, List.length_take, hlen]
  simp

set_option maxRecDepth 10000 in
/-- Witness for C7 (amended): the 400-character whitespace-free input
`"aa...a"` sanitizes to its first 297 characters plus `"..."`, 300 characters
in all. -/
theorem claim_C7_amended_truncation_witness :
    SMSService._validate_message (.str (String.mk (List.replicate 400 'a')))
        = ⟨(String.mk (List.replicate 400 'a')).data.take 297 ++ ['.', '.', '.']⟩
    ∧ (SMSService._validate_message
        (.str (String.mk (List.replicate 400 'a')))).data.length = 300 :=
  claim_C7_amended_truncation _ (by decide) (by decide)

/-- The decimal rendering is never empty. -/
theorem natDigitsRev_ne_nil (n : Nat) : natDigitsRev n ≠ [] := by
  unfold natDigitsRev
  by_cases h : n = 0
  · simp [h]
  · rw [if_neg h]
    cases n with
    | zero => exact absurd rfl h
    | succ m => simp [natDigitsAux]

/-- Assigning a fresh key appends the new pair at the end of the dict. -/
theorem dictInsert_fresh {α : Type} (d : List (String × α)) (k : String) (v : α)
    (h : k ∉ d.map Prod.fst) : dictInsert d k v = d ++ [(k, v)] := by
  induction d with
  | nil => rfl
  | cons e rest ih =>
    obtain ⟨k', v'⟩ := e
    simp only [List.map_cons, List.mem_cons, not_or] at h
    show (if k' = k then (k', v) :: rest else (k', v') :: dictInsert rest k v) = _
    rw [if_neg (fun he => h.1 he.symm), ih h.2]
    rfl

/-- The task list collected by the first loop of `send_multiple_sms` is the
phones of the valid requests, appended in order: invalid entries launch no
delivery task. -/
theorem collectLoop_snd (reqs : List SMSService.SmsRequest) :
    ∀ (res : List (String × Bool)) (tasks : List String),
      (SMSService.collectLoop reqs res tasks).2 = tasks ++ validPhones reqs := by
  induction reqs with
  | nil => intro res tasks; simp [SMSService.collectLoop, validPhones]
  | cons r rest ih =>
    intro res tasks
    by_cases hv : SMSService.reqValid r
    · rw [show SMSService.collectLoop (r :: rest) res tasks
          = SMSService.collectLoop rest res (tasks ++ [SMSService.reqPhone r]) by
          simp [SMSService.collectLoop, hv]]
      rw [ih]
      simp [validPhones, List.filter_cons, hv]
    · rw [show SMSService.collectLoop (r :: rest) res tasks
          = SMSService.collectLoop rest
              (dictInsert res (SMSService.effKey r) false) tasks by
          simp [SMSService.collectLoop, hv]]
      rw [ih]
      simp [validPhones, List.filter_cons, hv]

/-- First loop of `send_multiple_sms`, fully characterised when the invalid
keys are fresh and distinct: the immediate failures are appended in order and
the valid phones are collected in order. -/
theorem collectLoop_spec (reqs : List SMSService.SmsRequest) :
    ∀ (res : List (String × Bool)) (tasks : List String),
      (∀ k ∈ invKeys reqs, k ∉ res.map Prod.fst) → (invKeys reqs).Nodup →
      SMSService.collectLoop reqs res tasks
        = (res ++ invPairs reqs, tasks ++ validPhones reqs) := by
  induction reqs with
  | nil =>
    intro res tasks _ _
    simp [SMSService.collectLoop, invPairs, invalidReqs, validPhones]
  | cons r rest ih =>
    intro res tasks hfresh hnd
    by_cases hv : SMSService.reqValid r
    · have hkeys : invKeys (r :: rest) = invKeys rest := by
        simp [invKeys, invalidReqs, List.filter_cons, hv]
      rw [hkeys] at hfresh hnd
      rw [show SMSService.collectLoop (r :: rest) res tasks
          = SMSService.collectLoop rest res (tasks ++ [SMSService.reqPhone r]) by
          simp [SMSService.collectLoop, hv]]
      rw [ih res _ hfresh hnd]
      simp [invPairs, invalidReqs, validPhones, List.filter_cons, hv]
    · have hkeys : invKeys (r :: rest) = SMSService.effKey r :: invKeys rest := by
        simp [invKeys, invalidReqs, List.filter_cons, hv]
      rw [hkeys] at hfresh hnd
      have hheadfresh : SMSService.effKey r ∉ res.map Prod.fst :=
        hfresh _ (List.mem_cons_self _ _)
      rw [show SMSService.collectLoop (r :: rest) res tasks
          = SMSService.collectLoop rest
              (dictInsert res (SMSService.effKey r) false) tasks by
          simp [SMSService.collectLoop, hv]]
      rw [dictInsert_fresh res _ false hheadfresh]
      rw [List.nodup_cons] at hnd
      rw [ih _ tasks (fun k hk => by
          rw [List.map_append]
          simp only [List.mem_append, not_or]
          refine ⟨hfresh k (List.mem_cons_of_mem _ hk), ?_⟩
          simp only [List.map_cons, List.map_nil, List.mem_singleton]
          exact fun he => hnd.1 (he ▸ hk))
        hnd.2]
      simp [invPairs, invalidReqs, validPhones, List.filter_cons, hv]

/-- Second loop of `send_multiple_sms`: with fresh, distinct phone keys, each
gathered outcome is appended under its phone, an exception recording `false`. -/
theorem assignLoop_spec (pairs : List (String × Except Unit Bool)) :
    ∀ res : List (String × Bool),
      (∀ k ∈ pairs.map Prod.fst, k ∉ res.map Prod.fst) → (pairs.map Prod.fst).Nodup →
      SMSService.assignLoop pairs res
        = res ++ pairs.map (fun pr => (pr.1, SMSService.outcomeBool pr.2)) := by
  induction pairs with
  | nil => intro res _ _; simp [SMSService.assignLoop]
  | cons e rest ih =>
    intro res hfresh hnd
    obtain ⟨ph, out⟩ := e
    simp only [List.map_cons, List.nodup_cons] at hnd
    show SMSService.assignLoop rest (dictInsert res ph (SMSService.outcomeBool out)) = _
    rw [dictInsert_fresh res _ _ (hfresh ph (by simp))]
    rw [ih _ (fun k hk => by
        rw [List.map_append]
        simp only [List.mem_append, not_or]
        refine ⟨hfresh k (by simp [hk]), ?_⟩
        simp only [List.map_cons, List.map_nil, List.mem_singleton]
        exact fun he => hnd.1 (he ▸ hk))
      hnd.2]
    simp

/-- On a valid request the effective key is the phone itself. -/
theorem effKey_eq_reqPhone {r : SMSService.SmsRequest}
    (h : SMSService.reqValid r = true) : SMSService.effKey r = SMSService.reqPhone r := by
  unfold SMSService.effKey
  rw [if_pos (Bool.and_eq_true _ _ |>.mp h).1]

/-- The valid phones are the effective keys of the valid requests. -/
theorem validPhones_eq_map_effKey (reqs : List SMSService.SmsRequest) :
    validPhones reqs = (reqs.filter SMSService.reqValid).map SMSService.effKey := by
  unfold validPhones
  refine List.map_congr_left (fun r hr => ?_)
  exact (effKey_eq_reqPhone (List.mem_filter.mp hr).2).symm

/-- The keys of the immediate-failure entries are the invalid keys. -/
theorem invPairs_map_fst (reqs : List SMSService.SmsRequest) :
    (invPairs reqs).map Prod.fst = invKeys reqs := by
  unfold invPairs invKeys
  rw [List.map_map]
  rfl

/-- Claim C4 as amended (restricted to request lists whose effective keys —
the phone, or `"invalid"` for an entry with a falsy phone — are pairwise
distinct, since a duplicated key is overwritten last-write-wins): the result
map is exactly the immediate failures (`false` under `phone or 'invalid'`,
with no task launched) followed by one entry per valid request, keyed by its
phone and carrying its own delivery outcome, an in-task exception recorded as
`false` for that recipient only; the task list is exactly the valid phones. -/
theorem claim_C4_amended_bulk (reqs : List SMSService.SmsRequest)
    (outcomes : Nat → Except Unit Bool)
    (hnd : (reqs.map SMSService.effKey).Nodup) :
    SMSService.send_multiple_sms reqs outcomes
      = invPairs reqs
        ++ (validPhones reqs).enum.map
            (fun iph => (iph.2, SMSService.outcomeBool (outcomes iph.1)))
    ∧ (SMSService.collectLoop reqs [] []).2 = validPhones reqs := by
  have hInvSub : List.Sublist (invKeys reqs) (reqs.map SMSService.effKey) := by
    unfold invKeys invalidReqs
    exact (List.filter_sublist reqs).map _
  have hInvNodup : (invKeys reqs).Nodup := hnd.sublist hInvSub
  have hValidEq := validPhones_eq_map_effKey reqs
  have hValidSub : List.Sublist (validPhones reqs) (reqs.map SMSService.effKey) := by
    rw [hValidEq]
    exact (List.filter_sublist reqs).map _
  have hValidNodup : (validPhones reqs).Nodup := hnd.sublist hValidSub
  have hDisj : ∀ k ∈ validPhones reqs, k ∉ invKeys reqs := by
    intro k hkv hki
    rw [hValidEq] at hkv
    unfold invKeys invalidReqs at hki
    obtain ⟨r2, hr2, hk2⟩ := List.mem_map.mp hkv
    obtain ⟨r1, hr1, hk1⟩ := List.mem_map.mp hki
    obtain ⟨hr2m, hr2v⟩ := List.mem_filter.mp hr2
    obtain ⟨hr1m, hr1v⟩ := List.mem_filter.mp hr1
    have heq : r1 = r2 :=
      List.inj_on_of_nodup_map hnd hr1m hr2m (hk1.trans hk2.symm)
    rw [heq] at hr1v
    rw [hr2v] at hr1v
    simp at hr1v
  have hcp : SMSService.collectLoop reqs [] []
      = (invPairs reqs, validPhones reqs) := by
    have h := collectLoop_spec reqs [] [] (fun k _ => by simp) hInvNodup
    simpa using h
  have hkeys : ((validPhones reqs).enum.map
      (fun iph => (iph.2, outcomes iph.1))).map Prod.fst = validPhones reqs := by
    rw [List.map_map]
    exact List.enum_map_snd _
  constructor
  · unfold SMSService.send_multiple_sms
    simp only [hcp]
    rw [assignLoop_spec _ _
        (fun k hk => by
          rw [hkeys] at hk
          rw [invPairs_map_fst]
          exact hDisj k hk)
        (by rw [hkeys]; exact hValidNodup)]
    rw [List.map_map]
    rfl
  · rw [hcp]

/-- Claim C4, counterexample: with two valid entries sharing the phone `"p"`,
the result map has a single `"p"` entry holding the second task's outcome
(`false`); the first valid entry's individual outcome (`true`) is not
recorded, so the claim's "each valid entry is keyed by its phone with its
individual delivery outcome" fails for every list with duplicate phones
(last-write-wins). -/
theorem claim_C4_counterexample :
    SMSService.send_multiple_sms
        [⟨some "p", some "m"⟩, ⟨some "p", some "m"⟩]
        (fun i => if i == 0 then .ok true else .ok false)
      = [("p", false)]
    ∧ (fun i => if i == 0 then (Except.ok true : Except Unit Bool) else .ok false) 0
        = .ok true
    ∧ List.lookup "p"
        (SMSService.send_multiple_sms
          [⟨some "p", some "m"⟩, ⟨some "p", some "m"⟩]
          (fun i => if i == 0 then .ok true else .ok false))
      ≠ some true := by
  refine ⟨rfl, rfl, ?_⟩
  decide

/-- Witness for C4 (amended): a batch with one entry missing its message
(recorded `false` under its phone `"x"` with no task), one valid entry whose
task resolves `true`, and one valid entry whose task raises (recorded
`false`). -/
theorem claim_C4_amended_bulk_witness :
    SMSService.send_multiple_sms
        [⟨some "p1", some "m"⟩, ⟨some "x", Option.none⟩, ⟨some "p2", some "m"⟩]
        (fun i => if i == 0 then .ok true else .error ())
      = [("x", false), ("p1", true), ("p2", false)] := by
  have h := (claim_C4_amended_bulk
      [⟨some "p1", some "m"⟩, ⟨some "x", Option.none⟩, ⟨some "p2", some "m"⟩]
      (fun i => if i == 0 then .ok true else .error ()) (by decide)).1
  rw [h]
  decide

/-- The first survivor of `dropWhile` fails the predicate. -/
theorem dropWhile_head_false {p : Char → Bool} :
    ∀ {l : List Char} {c : Char} {rest : List Char},
      l.dropWhile p = c :: rest → p c = false
  | [], c, rest, h => by simp at h
  | a :: t, c, rest, h => by
    rw [List.dropWhile_cons] at h
    by_cases hp : p a
    · rw [if_pos hp] at h
      exact dropWhile_head_false h
    · rw [if_neg hp] at h
      injection h with h1 _
      subst h1
      simpa using hp

/-- A cons of a non-nil list keeps the tail's last element. -/
theorem getLast?_cons_of_ne_nil {x : Char} {X : List Char} (h : X ≠ []) :
    (x :: X).getLast? = X.getLast? := by
  cases X with
  | nil => exact absurd rfl h
  | cons y t => exact List.getLast?_cons_cons

/-- A stripped list never starts with whitespace. -/
theorem pyStrip_head {l : List Char} {c : Char} {rest : List Char}
    (h : pyStripList l = c :: rest) : pyWs c = false := by
  unfold pyStripList at h
  have hpre : List.IsPrefix (((l.dropWhile pyWs).reverse.dropWhile pyWs).reverse)
      (l.dropWhile pyWs) := by
    have hsuf : List.IsSuffix ((l.dropWhile pyWs).reverse.dropWhile pyWs)
        ((l.dropWhile pyWs).reverse) := List.dropWhile_suffix pyWs
    have := List.reverse_prefix.mpr hsuf
    rwa [List.reverse_reverse] at this
  rw [h] at hpre
  obtain ⟨s, hs⟩ := hpre
  exact dropWhile_head_false (l := l) (by rw [← hs]; rfl)

/-- A stripped list never ends with whitespace. -/
theorem pyStrip_last {l : List Char} {a : Char}
    (h : (pyStripList l).getLast? = some a) : pyWs a = false := by
  unfold pyStripList at h
  rw [List.getLast?_reverse] at h
  cases hB : (l.dropWhile pyWs).reverse.dropWhile pyWs with
  | nil => rw [hB] at h; simp at h
  | cons b t =>
    rw [hB] at h
    simp only [List.head?_cons, Option.some.injEq] at h
    subst h
    exact dropWhile_head_false hB

/-- After a whitespace run has been entered, the next emitted character is
not whitespace. -/
theorem collapseAux_true_head :
    ∀ {l : List Char} {c : Char} {rest : List Char},
      collapseAux true l = c :: rest → pyWs c = false
  | [], c, rest, h => by simp [collapseAux] at h
  | a :: t, c, rest, h => by
    by_cases hw : pyWs a
    · rw [show collapseAux true (a :: t) = collapseAux true t by
        simp [collapseAux, hw]] at h
      exact collapseAux_true_head h
    · rw [show collapseAux true (a :: t) = a :: collapseAux false t by
        simp [collapseAux, hw]] at h
      injection h with h1 _
      subst h1
      simpa using hw

/-- The collapse scanner's output is whitespace-collapsed: every whitespace
character it emits is a space, and no two adjacent emitted characters are
both whitespace. -/
theorem collapseAux_collapsed : ∀ (l : List Char) (b : Bool), Collapsed (collapseAux b l)
  | [], _ => ⟨by simp [collapseAux], by simp [collapseAux]⟩
  | c :: rest, b => by
    by_cases hw : pyWs c
    · cases b with
      | true =>
        rw [show collapseAux true (c :: rest) = collapseAux true rest by
          simp [collapseAux, hw]]
        exact collapseAux_collapsed rest true
      | false =>
        rw [show collapseAux false (c :: rest) = ' ' :: collapseAux true rest by
          simp [collapseAux, hw]]
        obtain ⟨ih1, ih2⟩ := collapseAux_collapsed rest true
        refine ⟨?_, ?_⟩
        · intro d hd hws
          rcases List.mem_cons.mp hd with hd | hd
          · exact hd
          · exact ih1 d hd hws
        · refine List.chain'_cons'.mpr ⟨?_, ih2⟩
          intro y hy
          cases hX : collapseAux true rest with
          | nil => rw [hX] at hy; simp at hy
          | cons x t =>
            rw [hX] at hy
            simp only [List.head?_cons, Option.mem_def, Option.some.injEq] at hy
            subst hy
            rw [collapseAux_true_head hX]
            simp
    · rw [show collapseAux b (c :: rest) = c :: collapseAux false rest by
        simp [collapseAux, hw]]
      obtain ⟨ih1, ih2⟩ := collapseAux_collapsed rest false
      refine ⟨?_, ?_⟩
      · intro d hd hws
        rcases List.mem_cons.mp hd with hd | hd
        · subst hd; exact absurd hws (by simpa using hw)
        · exact ih1 d hd hws
      · refine List.chain'_cons'.mpr ⟨?_, ih2⟩
        intro y _
        rw [show pyWs c = false by simpa using hw]
        simp

/-- The collapse scanner is the identity on an already-collapsed list, as
long as the in-run flag is only set when the head is not whitespace. -/
theorem collapseAux_id : ∀ (l : List Char) (b : Bool), Collapsed l →
    (b = true → ∀ c ∈ l.head?, pyWs c = false) → collapseAux b l = l
  | [], _, _, _ => rfl
  | c :: rest, b, hcol, hhead => by
    obtain ⟨hF1, hch⟩ := hcol
    obtain ⟨hjunc, hchrest⟩ := List.chain'_cons'.mp hch
    by_cases hw : pyWs c
    · cases b with
      | true =>
        have := hhead rfl c (by simp)
        exact absurd hw (by simp [this])
      | false =>
        have hc : c = ' ' := hF1 c (List.mem_cons_self _ _) hw
        rw [show collapseAux false (c :: rest) = ' ' :: collapseAux true rest by
          simp [collapseAux, hw]]
        rw [collapseAux_id rest true
          ⟨fun d hd => hF1 d (List.mem_cons_of_mem _ hd), hchrest⟩
          (fun _ d hd => by
            have := hjunc d hd
            rw [Classical.not_and_iff_or_not_not] at this
            rcases this with h | h
            · exact absurd hw h
            · simpa using h)]
        rw [hc]
    · rw [show collapseAux b (c :: rest) = c :: collapseAux false rest by
        simp [collapseAux, hw]]
      rw [collapseAux_id rest false
        ⟨fun d hd => hF1 d (List.mem_cons_of_mem _ hd), hchrest⟩
        (fun h => absurd h (by simp))]

/-- The collapse scanner preserves a non-whitespace last character. -/
theorem collapseAux_getLast : ∀ (l : List Char) (b : Bool) {a : Char},
    l.getLast? = some a → pyWs a = false → (collapseAux b l).getLast? = some a
  | [], _, a, h, _ => by simp at h
  | [c], b, a, h, hws => by
    have hac : c = a := by simpa using h
    subst hac
    rw [show collapseAux b [c] = [c] by simp [collapseAux, hws]]
    simp
  | c :: d :: rest, b, a, h, hws => by
    have hrest : (d :: rest).getLast? = some a := by
      rwa [List.getLast?_cons_cons] at h
    have hx := collapseAux_getLast (d :: rest) true hrest hws
    have hx' := collapseAux_getLast (d :: rest) false hrest hws
    by_cases hw : pyWs c
    · cases b with
      | true =>
        rw [show collapseAux true (c :: d :: rest) = collapseAux true (d :: rest) by
          simp [collapseAux, hw]]
        exact hx
      | false =>
        rw [show collapseAux false (c :: d :: rest) = ' ' :: collapseAux true (d :: rest) by
          simp [collapseAux, hw]]
        rw [getLast?_cons_of_ne_nil (fun hnil => by rw [hnil] at hx; simp at hx)]
        exact hx
    · rw [show collapseAux b (c :: d :: rest) = c :: collapseAux false (d :: rest) by
        simp [collapseAux, hw]]
      rw [getLast?_cons_of_ne_nil (fun hnil => by rw [hnil] at hx'; simp at hx')]
      exact hx'

/-- The collapse scanner maps a nonempty list to a nonempty list when not in
a run. -/
theorem collapseAux_false_ne_nil : ∀ {l : List Char}, l ≠ [] → collapseAux false l ≠ []
  | [], h => absurd rfl h
  | c :: rest, _ => by
    by_cases hw : pyWs c
    · rw [show collapseAux false (c :: rest) = ' ' :: collapseAux true rest by
        simp [collapseAux, hw]]
      simp
    · rw [show collapseAux false (c :: rest) = c :: collapseAux false rest by
        simp [collapseAux, hw]]
      simp

/-- The newline replacement does nothing to a collapsed list: its whitespace
characters are all plain spaces, never `\n`, `\r` or `\t`. -/
theorem stripNlTab_id_of_collapsed {L : List Char} (hcol : Collapsed L) :
    stripNlTab L = L := by
  refine map_eq_self_of (fun c hc => ?_)
  by_cases hw : pyWs c
  · rw [hcol.1 c hc hw]
    rfl
  · rw [show (c == '\n' || c == '\r' || c == '\t') = false from
      nlTab_false_of_nows (by simpa using hw)]
    rfl

/-- The truncation step preserves collapsedness, a non-whitespace head and a
non-whitespace last character, and bounds the length by 300. -/
theorem truncate300_props (M : List Char) (hcol : Collapsed M)
    (hhead : ∀ c rest, M = c :: rest → pyWs c = false)
    (hlast : ∀ a, M.getLast? = some a → pyWs a = false) :
    Collapsed (SMSService.truncate300 M)
    ∧ (∀ c rest, SMSService.truncate300 M = c :: rest → pyWs c = false)
    ∧ (∀ a, (SMSService.truncate300 M).getLast? = some a → pyWs a = false)
    ∧ (SMSService.truncate300 M).length ≤ 300 := by
  unfold SMSService.truncate300
  by_cases htr : 300 < M.length
  · rw [if_pos htr]
    have hdots : List.Chain' (fun a b => ¬(pyWs a = true ∧ pyWs b = true))
        ['.', '.', '.'] := by
      refine List.chain'_cons'.mpr ⟨?_, List.chain'_cons'.mpr
        ⟨?_, List.chain'_singleton _⟩⟩ <;>
        · intro y hy
          have hy' : '.' = y := by simpa using hy
          subst hy'
          intro hcon
          exact absurd hcon.2 (by decide)
    refine ⟨⟨?_, ?_⟩, ?_, ?_, ?_⟩
    · intro d hd hws
      rcases List.mem_append.mp hd with hd | hd
      · exact hcol.1 d (List.mem_of_mem_take hd) hws
      · have hd' : d = '.' := by simpa using hd
        subst hd'
        exact absurd hws (by decide)
    · refine List.Chain'.append (hcol.2.take 297) hdots ?_
      intro x _ y hy
      have hy' : '.' = y := by simpa using hy
      subst hy'
      intro hcon
      exact absurd hcon.2 (by decide)
    · intro c rest h
      cases hM : M with
      | nil => rw [hM] at htr; simp at htr
      | cons m0 mt =>
        rw [hM, show (297 : Nat) = 296 + 1 from rfl, List.take_succ_cons] at h
        injection h with h1 _
        subst h1
        exact hhead _ mt hM
    · intro a h
      rw [show M.take 297 ++ ['.', '.', '.'] = (M.take 297 ++ ['.', '.']) ++ ['.'] by
        simp, List.getLast?_concat] at h
      injection h with h1
      rw [← h1]
      decide
    · rw [List.length_append, List.length_take]
      simp only [List.length_cons, List.length_nil]
      omega
  · rw [if_neg htr]
    exact ⟨hcol, hhead, hlast, by omega⟩

/-- The sanitizer's output is collapsed, starts and ends with non-whitespace,
and is at most 300 characters long; moreover its final replacement step is
the identity, so the output is exactly the truncation stage. -/
theorem sanitizeL_props (l : List Char) :
    Collapsed (SMSService.sanitizeL l)
    ∧ (∀ c rest, SMSService.sanitizeL l = c :: rest → pyWs c = false)
    ∧ (∀ a, (SMSService.sanitizeL l).getLast? = some a → pyWs a = false)
    ∧ (SMSService.sanitizeL l).length ≤ 300 := by
  have hMcol : Collapsed (collapseWs (pyStripList l)) := collapseAux_collapsed _ false
  have hMhead : ∀ c rest, collapseWs (pyStripList l) = c :: rest → pyWs c = false := by
    intro c rest h
    cases hA : pyStripList l with
    | nil => rw [hA] at h; simp [collapseWs, collapseAux] at h
    | cons a t =>
      have hwa : pyWs a = false := pyStrip_head hA
      rw [hA, show collapseWs (a :: t) = a :: collapseAux false t by
        simp [collapseWs, collapseAux, hwa]] at h
      injection h with h1 _
      rw [← h1]
      exact hwa
  have hMlast : ∀ a, (collapseWs (pyStripList l)).getLast? = some a → pyWs a = false := by
    intro a h
    cases hAl : (pyStripList l).getLast? with
    | none =>
      have hnil : pyStripList l = [] := List.getLast?_eq_none_iff.mp hAl
      rw [hnil] at h
      simp [collapseWs, collapseAux] at h
    | some b =>
      have hwb : pyWs b = false := pyStrip_last hAl
      have hpres := collapseAux_getLast (pyStripList l) false hAl hwb
      rw [show collapseWs (pyStripList l) = collapseAux false (pyStripList l) from rfl,
        hpres] at h
      injection h with h1
      rw [← h1]
      exact hwb
  obtain ⟨hTcol, hThead, hTlast, hTlen⟩ :=
    truncate300_props (collapseWs (pyStripList l)) hMcol hMhead hMlast
  have hId : SMSService.sanitizeL l
      = SMSService.truncate300 (collapseWs (pyStripList l)) := by
    unfold SMSService.sanitizeL
    exact stripNlTab_id_of_collapsed hTcol
  rw [hId]
  exact ⟨hTcol, hThead, hTlast, hTlen⟩

/-- The sanitizer is the identity on any collapsed list bounded by 300
characters whose ends are non-whitespace — in particular on its own output. -/
theorem sanitizeL_id (L : List Char) (hcol : Collapsed L)
    (hhead : ∀ c rest, L = c :: rest → pyWs c = false)
    (hlast : ∀ a, L.getLast? = some a → pyWs a = false)
    (hlen : L.length ≤ 300) :
    SMSService.sanitizeL L = L := by
  have hstrip : pyStripList L = L := by
    have hA : L.dropWhile pyWs = L := by
      cases hL : L with
      | nil => rfl
      | cons c t =>
        rw [List.dropWhile_cons, if_neg (by rw [hhead c t hL]; simp)]
    unfold pyStripList
    rw [hA]
    have hrev : L.reverse.dropWhile pyWs = L.reverse := by
      cases hr : L.reverse with
      | nil => rfl
      | cons a t =>
        have hLa : L.getLast? = some a := by
          rw [← List.head?_reverse, hr]
          rfl
        rw [List.dropWhile_cons, if_neg (by rw [hlast a hLa]; simp)]
    rw [hrev, List.reverse_reverse]
  have hcoll : collapseWs L = L :=
    collapseAux_id L false hcol (fun h => absurd h (by simp))
  unfold SMSService.sanitizeL SMSService.truncate300
  rw [hstrip, hcoll, if_neg (by omega)]
  exact stripNlTab_id_of_collapsed hcol

/-- Claim C6: `sanitizeMessage` is idempotent — applying `_validate_message`
to its own output returns the output unchanged, for every input value (in
particular for every string). -/
theorem claim_C6_sanitize_idempotent (v : PyVal) :
    SMSService._validate_message (.str (SMSService._validate_message v))
      = SMSService._validate_message v := by
  cases v with
  | str s =>
    by_cases hse : s.data.isEmpty
    · rw [show SMSService._validate_message (.str s) = "" by
        simp [SMSService._validate_message, hse]]
      rfl
    · rw [show SMSService._validate_message (.str s) = ⟨SMSService.sanitizeL s.data⟩ by
        simp [SMSService._validate_message, hse]]
      obtain ⟨hcol, hhead, hlast, hlen⟩ := sanitizeL_props s.data
      by_cases hLe : (SMSService.sanitizeL s.data).isEmpty
      · have hnil : SMSService.sanitizeL s.data = [] := by simpa using hLe
        rw [hnil]
        rfl
      · show (if (String.mk (SMSService.sanitizeL s.data)).data.isEmpty then ""
            else (⟨SMSService.sanitizeL
              (String.mk (SMSService.sanitizeL s.data)).data⟩ : String))
          = ⟨SMSService.sanitizeL s.data⟩
        rw [if_neg hLe]
        exact congrArg String.mk (sanitizeL_id _ hcol hhead hlast hlen)
  | none => rfl
  | int n => rfl
  | float q => rfl
  | dec q => rfl
